import Mathlib

/-!
Shallow embedding of the retrieval, reassembly, reranking and access-control
core of the rag_chatbot repository.

Conventions used throughout:

* Python floats are modelled as rationals.  The only real-valued operation the
  claims depend on is order comparison, which the rationals support exactly;
  the cross-encoder and cosine scorers themselves are external ML inference
  calls and enter the embedding as oracle function parameters.
* Fallible external calls (the vector index, the identity store) enter as
  total oracle functions, or as Except-valued oracles where the Python code
  distinguishes an exception from a result.
* Python dicts are modelled either as assoc lists in insertion order, when
  the code iterates over the dict, or as functions to Option, when only
  point lookups happen.  Both reproduce the last-write-wins update semantics.
* Python sorted(...) is a stable sort; it is modelled by Mathlib
  List.insertionSort with a non-strict comparison, which is stable in the
  same sense.
-/

set_option maxHeartbeats 1000000

/-- A retrieved chunk, modelling a langchain Document restricted to the
payload fields the pipeline reads: page_content plus the metadata keys
document_name, headers and document_id
(src/helpers/qdrant_connection_helper.py). -/
structure Doc where
  page_content : String
  document_name : String
  headers : String
  document_id : String
deriving DecidableEq

/-- Python sorted(l, key=key, reverse=True): a stable descending sort by a
numeric key.  Modelled with List.insertionSort under the non-strict relation
key b <= key a, which is stable exactly like CPython timsort: equal keys keep
their input order. -/
def pySortedByDesc {α : Type} (key : α → ℚ) (l : List α) : List α :=
  @List.insertionSort α (fun a b => key b ≤ key a)
    (fun a b => inferInstanceAs (Decidable (key b ≤ key a))) l

theorem pySortedByDesc_perm {α : Type} (key : α → ℚ) (l : List α) :
    List.Perm (pySortedByDesc key l) l :=
  List.perm_insertionSort _ l

theorem pySortedByDesc_sorted {α : Type} (key : α → ℚ) (l : List α) :
    (pySortedByDesc key l).Sorted (fun a b => key b ≤ key a) := by
  haveI : IsTotal α (fun a b => key b ≤ key a) := ⟨fun a b => le_total (key b) (key a)⟩
  haveI : IsTrans α (fun a b => key b ≤ key a) :=
    ⟨fun _ _ _ h1 h2 => le_trans h2 h1⟩
  exact List.sorted_insertionSort _ l

/-- A sort whose key is the same constant on every element leaves the list
unchanged, because the sort is stable. -/
theorem pySortedByDesc_const {α : Type} (l : List α) :
    pySortedByDesc (fun _ => (0 : ℚ)) l = l := by
  have hs : l.Sorted (fun _ _ : α => (0 : ℚ) ≤ (0 : ℚ)) := by
    induction l with
    | nil => exact List.sorted_nil
    | cons a t ih => exact (List.sorted_cons).2 ⟨fun b _ => le_refl 0, ih⟩
  exact hs.insertionSort_eq

/-- Python str.strip(): drop leading and trailing whitespace, as used on
page_content in SearchRetrieval._query_retrieval_reranking. -/
def pyStrip (s : String) : String :=
  ⟨((s.data.dropWhile Char.isWhitespace).reverse.dropWhile Char.isWhitespace).reverse⟩

/-- The dict comprehension
content_to_results_map = (candidate.page_content.strip() maps to candidate):
later candidates with the same stripped content overwrite earlier ones, so a
lookup returns the last matching candidate
(src/handlers/retrieval_handler.py line 72). -/
def contentToResult (candidates : List Doc) (content : String) : Option Doc :=
  candidates.reverse.find? (fun c => pyStrip c.page_content == content)

/-- SearchRetrieval._query_retrieval_reranking
(src/handlers/retrieval_handler.py lines 39 to 77).  The FlagReranker
compute_score call (normalize=True) is the oracle parameter score, a function
of the query and the stripped candidate content. -/
def query_retrieval_reranking (score : String → String → ℚ) (query : String)
    (candidates : List Doc) (threshold : ℚ) : List Doc :=
  if candidates.isEmpty then []
  else
    let query_docs_pair := candidates.map (fun c => (query, pyStrip c.page_content))
    let scores := query_docs_pair.map (fun p => score p.1 p.2)
    let sorted_indices :=
      pySortedByDesc (fun i => scores.getD i 0) (List.range scores.length)
    let sorted_scores := sorted_indices.map (fun i => scores.getD i 0)
    let filtered_indices :=
      ((sorted_indices.zip sorted_scores).filter (fun p => threshold ≤ p.2)).map (fun p => p.1)
    let rerank_content :=
      filtered_indices.map (fun i => (query_docs_pair.getD i (query, "")).2)
    rerank_content.filterMap (fun content => contentToResult candidates content)

/-- The follow-up index query of QdrantConnection.query_headers: for one
(document_name, headers) pair it returns the concatenation of the
page_content of all points matching that pair, ordered by metadata.index.
The vector index is external, so the whole fetch is an oracle parameter
fetch document_name headers. -/
def reassembledContent (fetch : String → String → String) (d : Doc) : Doc :=
  { page_content := fetch d.document_name d.headers
    document_name := d.document_name
    headers := d.headers
    document_id := d.document_id }

/-- Increment the score of the first entry carrying the given headers key,
modelling processed_documents-of-headers score += 1
(src/helpers/qdrant_connection_helper.py line 125). -/
def bumpScore (key : String) : List (String × Doc × ℕ) → List (String × Doc × ℕ)
  | [] => []
  | e :: rest =>
    if e.1 = key then (e.1, e.2.1, e.2.2 + 1) :: rest else e :: bumpScore key rest

/-- One iteration of the document loop in QdrantConnection.query_headers:
the processed_documents dict is keyed by doc.metadata of headers ALONE (not
by the (document_name, headers) pair); a repeated headers value increments
the existing score, a fresh one appends a new entry with score 1. -/
def queryHeadersStep (fetch : String → String → String)
    (acc : List (String × Doc × ℕ)) (d : Doc) : List (String × Doc × ℕ) :=
  if acc.any (fun e => e.1 == d.headers) then bumpScore d.headers acc
  else acc ++ [(d.headers, reassembledContent fetch d, 1)]

/-- The processed_documents dict of QdrantConnection.query_headers after the
loop over the input documents, as an assoc list in insertion order:
entries are (headers, (reassembled document, recurrence score)). -/
def queryHeadersEntries (fetch : String → String → String)
    (documents : List Doc) : List (String × Doc × ℕ) :=
  documents.foldl (queryHeadersStep fetch) []

/-- QdrantConnection.query_headers
(src/helpers/qdrant_connection_helper.py lines 104 to 176): group the input
documents, then sort the groups by score descending (stable) and return the
reassembled documents. -/
def query_headers (fetch : String → String → String) (documents : List Doc) : List Doc :=
  (pySortedByDesc (fun e => (e.2.2 : ℚ)) (queryHeadersEntries fetch documents)).map
    (fun e => e.2.1)

/-- SearchRetrieval.qdrant_retrieval
(src/handlers/retrieval_handler.py lines 79 to 133).  collectionExists models
client.collection_exists; hybrid models the QdrantConnection.hybrid_search
call, Except-valued because the Python call can raise; any raise inside the
try block is caught and turned into the empty list.  The reranking threshold
at this call site is 0.3. -/
def qdrant_retrieval (collectionExists : String → Bool)
    (hybrid : String → Except String (List Doc))
    (score : String → String → ℚ) (fetch : String → String → String)
    (query : String) (top_k : ℕ) (collection_name : String) : List Doc :=
  if collectionExists collection_name = false then []
  else
    match hybrid collection_name with
    | Except.error _ => []
    | Except.ok docs =>
      let docs1 := query_retrieval_reranking score query docs (3 / 10)
      let extended_docs := query_headers fetch docs1
      extended_docs.take top_k

/-- A row of the relational collections table
(src/database/models/schemas.py), restricted to the columns
CollectionManagementService reads. -/
structure Collection where
  user_id : String
  collection_name : String
  organization_id : Option String
  is_personal : Bool
deriving DecidableEq

/-- Python truthiness of an optional string: None and the empty string are
falsy, every other string is truthy. -/
def pyTruthy : Option String → Bool
  | none => false
  | some s => s ≠ ""

/-- The entry of the get_user_collections result list the multi-collection
retriever reads: collection_name and is_personal. -/
structure CollInfo where
  collection_name : String
  is_personal : Bool
deriving DecidableEq

/-- CollectionManagementService.get_user_collections
(src/database/services/collection_management_service.py lines 181 to 242):
personal collections of the user first, then (when an organization id is
supplied and truthy) the organizational collections of that organization. -/
def get_user_collections (db : List Collection) (user_id : String)
    (organization_id : Option String)
    (include_personal include_organizational : Bool) : List CollInfo :=
  let personal :=
    if include_personal then
      (db.filter (fun c => c.user_id == user_id && c.is_personal)).map
        (fun c => ⟨c.collection_name, true⟩)
    else []
  let organizational :=
    if include_organizational && pyTruthy organization_id then
      (db.filter (fun c => c.organization_id == organization_id && !c.is_personal)).map
        (fun c => ⟨c.collection_name, false⟩)
    else []
  personal ++ organizational

/-- A document tagged with provenance by the multi-collection retriever:
doc.metadata gets the extra keys source_collection and is_personal
(src/handlers/multi_collection_retriever.py lines 76 to 82). -/
structure TaggedDoc where
  doc : Doc
  source_collection : String
  is_personal : Bool
deriving DecidableEq

def tagDoc (ci : CollInfo) (d : Doc) : TaggedDoc :=
  ⟨d, ci.collection_name, ci.is_personal⟩

/-- MultiCollectionRetrieval.retrieve_from_collections
(src/handlers/multi_collection_retriever.py lines 19 to 95): resolve the
accessible collections, run qdrant_retrieval per collection, tag and flatten
in collection order, sort, truncate to top_k.  The Python sort key is
getattr(doc.metadata, score, 0): doc.metadata is a dict, dicts have no score
attribute, so getattr always yields the default 0 and the key is the
constant 0. -/
def retrieve_from_collections (db : List Collection)
    (collectionExists : String → Bool)
    (hybrid : String → Except String (List Doc))
    (score : String → String → ℚ) (fetch : String → String → String)
    (query : String) (user_id : String) (organization_id : Option String)
    (top_k : ℕ) (include_personal include_organizational : Bool) : List TaggedDoc :=
  let user_collections :=
    get_user_collections db user_id organization_id
      include_personal include_organizational
  let all_results := user_collections.flatMap (fun ci =>
    (qdrant_retrieval collectionExists hybrid score fetch query top_k
        ci.collection_name).map (tagDoc ci))
  (pySortedByDesc (fun _ => 0) all_results).take top_k

/-- The identity store (MySQL), reduced to what UserRoleService reads:
users uid is whether the User row with Status 10 exists, memberships uid is
the list of (OrganizationId, Role) rows of the OrganizationUser join with
Status 10, in row order (src/handlers/user_role_handler.py). -/
structure IdStore where
  users : String → Bool
  memberships : String → List (String × ℕ)

/-- The role id decoding used throughout UserRoleService: 10 is ADMIN, 90 is
USER, anything else becomes the string ROLE_ followed by the id. -/
def roleName (role_id : ℕ) : String :=
  if role_id = 10 then "ADMIN"
  else if role_id = 90 then "USER"
  else "ROLE_" ++ toString role_id

/-- The cached user info, reduced to the roles dict (organization id to role
string, insertion order preserved, duplicate organization rows overwrite).
The personal fields of the Python result (email, name, ...) are never read by
the operations verified here and are elided. -/
structure UserInfo where
  roles : List (String × String)
deriving DecidableEq

/-- Python dict lookup on an assoc list built in insertion order with
last-write-wins updates: the last binding of the key wins. -/
def dictLookup (l : List (String × String)) (k : String) : Option String :=
  (l.reverse.find? (fun p => p.1 == k)).map (fun p => p.2)

/-- The mutable caches of one UserRoleService instance plus an
instrumentation counter: lookups counts the authoritative identity-store
consultations (one per cache-miss refill in get_user_info_with_roles, one
per direct role query in get_user_role). -/
structure RoleState where
  roleCache : String × String → Option (Option String × ℕ)
  userCache : String → Option (UserInfo × ℕ)
  orgCache : String → Option (Bool × ℕ)
  lookups : ℕ

/-- A freshly constructed UserRoleService: empty caches. -/
def initialRoleState : RoleState :=
  { roleCache := fun _ => none
    userCache := fun _ => none
    orgCache := fun _ => none
    lookups := 0 }

/-- Cache TTL, 300 seconds (user_role_handler.py line 12). -/
def cacheTTL : ℕ := 300

/-- UserRoleService._is_cache_valid (user_role_handler.py lines 17 to 19). -/
def isCacheValid (now timestamp : ℕ) : Bool := now - timestamp < cacheTTL

/-- One iteration of the membership loop in get_user_info_with_roles
(user_role_handler.py lines 73 to 99): record the role of this organization
in the role cache and mark the organization as existing in the org cache. -/
def cacheMembershipRow (user_id : String) (now : ℕ) (s : RoleState)
    (p : String × ℕ) : RoleState :=
  { s with
    roleCache := fun k =>
      if k = (user_id, p.1) then some (some (roleName p.2), now) else s.roleCache k
    orgCache := fun k => if k = p.1 then some (true, now) else s.orgCache k }

/-- The cache-miss body of UserRoleService.get_user_info_with_roles
(user_role_handler.py lines 37 to 124): one authoritative lookup; a missing
user row returns None and caches nothing; otherwise the membership rows
populate the role cache and the org cache, and the summary is stored in the
user cache. -/
def fetchUserInfo (store : IdStore) (now : ℕ) (user_id : String)
    (st : RoleState) : Option UserInfo × RoleState :=
  let st1 : RoleState := { st with lookups := st.lookups + 1 }
  if store.users user_id = false then (none, st1)
  else
    let rows := store.memberships user_id
    let roles := rows.map (fun p => (p.1, roleName p.2))
    let st2 := rows.foldl (cacheMembershipRow user_id now) st1
    let info : UserInfo := ⟨roles⟩
    let st3 : RoleState :=
      { st2 with userCache := fun k => if k = user_id then some (info, now) else st2.userCache k }
    (some info, st3)

/-- UserRoleService.get_user_info_with_roles (user_role_handler.py lines 21
to 124): serve a valid cache entry, otherwise refill from the store. -/
def getUserInfoWithRoles (store : IdStore) (now : ℕ) (user_id : String)
    (st : RoleState) : Option UserInfo × RoleState :=
  match st.userCache user_id with
  | some (info, timestamp) =>
    if isCacheValid now timestamp then (some info, st)
    else fetchUserInfo store now user_id st
  | none => fetchUserInfo store now user_id st

/-- The part of UserRoleService.get_user_role after the role-cache check
(user_role_handler.py lines 144 to 182): consult get_user_info_with_roles;
if it produced user info, answer from its roles dict (caching nothing new);
only when it produced None fall back to the direct SQL role query, whose
result, found or not, is written to the role cache. -/
def getUserRoleMiss (store : IdStore) (now : ℕ) (user_id organization_id : String)
    (st : RoleState) : Option String × RoleState :=
  match getUserInfoWithRoles store now user_id st with
  | (some info, st1) => (dictLookup info.roles organization_id, st1)
  | (none, st1) =>
    let st2 : RoleState := { st1 with lookups := st1.lookups + 1 }
    match (store.memberships user_id).filter (fun p => p.1 == organization_id) with
    | [] =>
      (none,
        { st2 with roleCache := fun k =>
            if k = (user_id, organization_id) then some (none, now) else st2.roleCache k })
    | p :: _ =>
      (some (roleName p.2),
        { st2 with roleCache := fun k =>
            if k = (user_id, organization_id) then some (some (roleName p.2), now)
            else st2.roleCache k })

/-- UserRoleService.get_user_role (user_role_handler.py lines 126 to 182):
serve a valid role-cache entry (even a cached negative), otherwise run the
miss path. -/
def getUserRole (store : IdStore) (now : ℕ) (user_id organization_id : String)
    (st : RoleState) : Option String × RoleState :=
  match st.roleCache (user_id, organization_id) with
  | some (role, timestamp) =>
    if isCacheValid now timestamp then (role, st)
    else getUserRoleMiss store now user_id organization_id st
  | none => getUserRoleMiss store now user_id organization_id st

/-- UserRoleService.is_admin (user_role_handler.py lines 327 to 329), as
called from check_collection_permission: the service instance there is
freshly constructed, so its caches start empty. -/
def is_admin (store : IdStore) (now : ℕ) (user_id organization_id : String) : Bool :=
  (getUserRole store now user_id organization_id initialRoleState).1 == some "ADMIN"

/-- UserRoleService.clear_cache (user_role_handler.py lines 332 to 362).
Python truthiness decides the branch: None or the empty string count as an
absent argument. -/
def clearCache (user_id organization_id : Option String) (st : RoleState) : RoleState :=
  if pyTruthy user_id && pyTruthy organization_id then
    let u := user_id.getD ""
    let o := organization_id.getD ""
    { st with roleCache := fun k => if k = (u, o) then none else st.roleCache k }
  else if pyTruthy user_id then
    let u := user_id.getD ""
    { st with
      userCache := fun k => if k = u then none else st.userCache k
      roleCache := fun k => if k.1 = u then none else st.roleCache k }
  else if pyTruthy organization_id then
    let o := organization_id.getD ""
    { st with
      orgCache := fun k => if k = o then none else st.orgCache k
      roleCache := fun k => if k.2 = o then none else st.roleCache k }
  else
    { st with
      roleCache := fun _ => none
      userCache := fun _ => none
      orgCache := fun _ => none }

/-- The first collection row matching the name:
session.query(Collection).filter_by(collection_name=...).first()
(collection_management_service.py lines 142 to 146).  The query has no
other filter, so rows of either kind and any owner can be returned; the
relational store is modelled as the list of rows in table order. -/
def findCollection (db : List Collection) (collection_name : String) : Option Collection :=
  db.find? (fun c => c.collection_name == collection_name)

/-- CollectionManagementService.check_collection_permission
(collection_management_service.py lines 119 to 178).  Personal collections
answer by ownership alone; organizational collections require the supplied
organization_id to equal the truthy owning organization id, grant read
unconditionally under that match, and grant write or delete to the stored
creator or to an admin of that organization.  A missing collection returns
false, as does the final fallthrough. -/
def check_collection_permission (db : List Collection) (store : IdStore) (now : ℕ)
    (user_id collection_name : String) (organization_id : Option String)
    (required_permission : String) : Bool :=
  match findCollection db collection_name with
  | none => false
  | some collection =>
    if collection.is_personal then collection.user_id == user_id
    else
      match collection.organization_id with
      | some corg =>
        if corg ≠ "" && organization_id == some corg then
          if required_permission == "read" then true
          else if collection.user_id == user_id then true
          else is_admin store now user_id corg
        else false
      | none => false

/-- A candidate passed to RerankHandler.process_candidates: an object with
doc_id, content and an optional organization_id attribute
(src/handlers/rerank_handler.py). -/
structure Cand where
  doc_id : String
  content : String
  organization_id : Option String
deriving DecidableEq

/-- One output row of RerankHandler.process_candidates: the dict with
doc_id, score, content and, when the candidate had a truthy organization_id,
that organization_id. -/
structure RankedItem where
  doc_id : String
  score : ℚ
  content : String
  organization_id : Option String
deriving DecidableEq

/-- The outcome of one RerankHandler.request_ranking_triton_kserve call:
ok is a successful embedding, noData models a response whose outputs carry
no data field (resp.get of data is None), exn models the model.encode call
raising. -/
inductive EncodeResult where
  | ok (data : List ℚ)
  | noData
  | exn
deriving DecidableEq

/-- The embedding extracted from a response in the candidate loop
(rerank_handler.py lines 188 to 194): the data on success, the empty
np.array on a missing data field. -/
def encData : EncodeResult → List ℚ
  | EncodeResult.ok v => v
  | _ => []

def isExn : EncodeResult → Bool
  | EncodeResult.exn => true
  | _ => false

/-- RerankHandler.pad_or_truncate (rerank_handler.py lines 129 to 143). -/
def padOrTruncate (embedding : List ℚ) (target_size : ℕ) : List ℚ :=
  if target_size < embedding.length then embedding.take target_size
  else if embedding.length < target_size then
    embedding ++ List.replicate (target_size - embedding.length) 0
  else embedding

/-- The np.linalg.norm(v) == 0 test of cosine_similarity: the Euclidean norm
of a real vector is zero exactly when every component is zero, so the guard
is modelled by the equivalent all-zero test (which avoids irrational square
roots). -/
def normIsZero (v : List ℚ) : Bool := v.all (fun x => x = 0)

/-- RerankHandler.cosine_similarity (rerank_handler.py lines 107 to 127).
The guards (empty vector, zero norm) are the code; the remaining
dot / (norm_a * norm_b) value is irrational in general and enters as the
oracle cosv. -/
def cosine_similarity (cosv : List ℚ → List ℚ → ℚ) (vec_a vec_b : List ℚ) : ℚ :=
  if vec_a.length = 0 ∨ vec_b.length = 0 then 0
  else if normIsZero vec_a ∨ normIsZero vec_b then 0
  else cosv vec_a vec_b

/-- Python dict insertion scores[doc_id] = value on an insertion-ordered
assoc list: overwrite in place if the key exists, append otherwise. -/
def dictInsert (k : String) (v : ℚ) : List (String × ℚ) → List (String × ℚ)
  | [] => [(k, v)]
  | p :: rest => if p.1 = k then (k, v) :: rest else p :: dictInsert k v rest

/-- RerankHandler.rerank_embeddings (rerank_handler.py lines 145 to 167):
build the scores dict over zip(candidates, embeddings) with the
positive-length guard, then sort the items by score descending (stable). -/
def rerank_embeddings (cosv : List ℚ → List ℚ → ℚ) (embeddings : List (List ℚ))
    (query_embedding : List ℚ) (candidates : List Cand) : List (String × ℚ) :=
  let scores := (candidates.zip embeddings).foldl
    (fun acc ce =>
      dictInsert ce.1.doc_id
        (if 0 < ce.2.length ∧ 0 < query_embedding.length then
          cosine_similarity cosv ce.2 query_embedding
        else 0) acc) []
  pySortedByDesc (fun p => p.2) scores

/-- The organization_id preserved in a result row: only when the attribute
is present and truthy (rerank_handler.py lines 224 to 226). -/
def pyOrgField (c : Cand) : Option String :=
  match c.organization_id with
  | some o => if o = "" then none else some o
  | none => none

/-- The target size for padding: max length over the candidate embeddings of
positive length, 0 when there are none (rerank_handler.py lines 201 to 202). -/
def batchTargetSize (encode : String → EncodeResult) (candidates : List Cand) : ℕ :=
  (((candidates.map (fun c => encData (encode c.content))).filter
      (fun e => 0 < e.length)).map List.length).foldl max 0

/-- RerankHandler.process_candidates (rerank_handler.py lines 169 to 240).
Control flow of the Python body, in order: the empty-query or empty-list
guard; the candidate embedding loop, where a raising encode call aborts into
the batch-level except handler, which returns the empty list; the query
embedding call, likewise; the target-size computation and its early return;
the query padding, which raises (and is caught) when the query response had
no data, since np.array(None).tolist() is None; ranking; mapping each ranked
(doc_id, score) to the first candidate with that doc_id; thresholding. -/
def process_candidates (encode : String → EncodeResult)
    (cosv : List ℚ → List ℚ → ℚ) (candidates : List Cand) (query : String)
    (threshold : ℚ) : List RankedItem :=
  if query = "" ∨ candidates.isEmpty then []
  else if candidates.any (fun c => isExn (encode c.content)) then []
  else if isExn (encode query) then []
  else
    let embeddings := candidates.map (fun c => encData (encode c.content))
    let target_size := batchTargetSize encode candidates
    if target_size = 0 then []
    else
      match encode query with
      | EncodeResult.ok qdata =>
        let padded := embeddings.map (fun e => padOrTruncate e target_size)
        let query_embedding := padOrTruncate qdata target_size
        let ranked_results := rerank_embeddings cosv padded query_embedding candidates
        let mapped_results := ranked_results.filterMap (fun p =>
          (candidates.find? (fun c => c.doc_id == p.1)).map (fun c =>
            ({ doc_id := p.1, score := p.2, content := c.content
               organization_id := pyOrgField c } : RankedItem)))
        mapped_results.filter (fun item => threshold ≤ item.score)
      | _ => []

/-- The score process_candidates assigns to one candidate of the batch: its
padded embedding against the padded query embedding, with the guards of
rerank_embeddings and cosine_similarity. -/
def batchScore (encode : String → EncodeResult) (cosv : List ℚ → List ℚ → ℚ)
    (candidates : List Cand) (qdata : List ℚ) (c : Cand) : ℚ :=
  let target_size := batchTargetSize encode candidates
  let e := padOrTruncate (encData (encode c.content)) target_size
  let q := padOrTruncate qdata target_size
  if 0 < e.length ∧ 0 < q.length then cosine_similarity cosv e q else 0

theorem qdrant_retrieval_of_error (collectionExists : String → Bool)
    (hybrid : String → Except String (List Doc)) (score : String → String → ℚ)
    (fetch : String → String → String) (query : String) (top_k : ℕ)
    (collection_name : String) (e : String)
    (hfail : hybrid collection_name = Except.error e) :
    qdrant_retrieval collectionExists hybrid score fetch query top_k collection_name = [] := by
  unfold qdrant_retrieval
  cases h : collectionExists collection_name <;> simp [h, hfail]

theorem retrieve_from_collections_eq (db : List Collection)
    (collectionExists : String → Bool) (hybrid : String → Except String (List Doc))
    (score : String → String → ℚ) (fetch : String → String → String)
    (query user_id : String) (organization_id : Option String) (top_k : ℕ)
    (include_personal include_organizational : Bool) :
    retrieve_from_collections db collectionExists hybrid score fetch query user_id
        organization_id top_k include_personal include_organizational =
      ((get_user_collections db user_id organization_id include_personal
          include_organizational).flatMap (fun ci =>
        (qdrant_retrieval collectionExists hybrid score fetch query top_k
            ci.collection_name).map (tagDoc ci))).take top_k := by
  simp only [retrieve_from_collections, pySortedByDesc_const]

/-- Claim C10: the final sort of the merged pool in retrieve_from_collections
compares a constant key (getattr on a dict metadata always yields the default
0), so the returned list is exactly the concatenation of the per-collection
result lists, in the order the collections were resolved from the grant
store, truncated to top_k. -/
theorem multi_collection_order_is_concatenation (db : List Collection)
    (collectionExists : String → Bool) (hybrid : String → Except String (List Doc))
    (score : String → String → ℚ) (fetch : String → String → String)
    (query user_id : String) (organization_id : Option String) (top_k : ℕ)
    (include_personal include_organizational : Bool) :
    retrieve_from_collections db collectionExists hybrid score fetch query user_id
        organization_id top_k include_personal include_organizational =
      ((get_user_collections db user_id organization_id include_personal
          include_organizational).flatMap (fun ci =>
        (qdrant_retrieval collectionExists hybrid score fetch query top_k
            ci.collection_name).map (tagDoc ci))).take top_k :=
  retrieve_from_collections_eq db collectionExists hybrid score fetch query user_id
    organization_id top_k include_personal include_organizational

/-- Claim C8: when the search of one collection fails (its hybrid call
raises), retrieve_from_collections still returns every other collection
exactly as it would have, and the failing collection contributes the empty
list. -/
theorem multi_collection_fanout_isolation (db : List Collection)
    (collectionExists : String → Bool) (hybrid : String → Except String (List Doc))
    (score : String → String → ℚ) (fetch : String → String → String)
    (query user_id : String) (organization_id : Option String) (top_k : ℕ)
    (include_personal include_organizational : Bool) (c0 : String) (e : String)
    (hfail : hybrid c0 = Except.error e) :
    retrieve_from_collections db collectionExists hybrid score fetch query user_id
        organization_id top_k include_personal include_organizational =
      ((get_user_collections db user_id organization_id include_personal
          include_organizational).flatMap (fun ci =>
        if ci.collection_name = c0 then []
        else (qdrant_retrieval collectionExists hybrid score fetch query top_k
            ci.collection_name).map (tagDoc ci))).take top_k := by
  rw [retrieve_from_collections_eq]
  rw [List.flatMap_def, List.flatMap_def]
  congr 1
  congr 1
  apply List.map_congr_left
  intro ci _
  by_cases hc : ci.collection_name = c0
  · rw [hc, if_pos rfl, qdrant_retrieval_of_error _ _ _ _ _ _ _ e hfail]
    rfl
  · rw [if_neg hc]

/-- Claim C4: for a collection name absent from the vector index,
qdrant_retrieval returns the empty list; and any failure of the underlying
hybrid search is caught and likewise turned into the empty list, so the
entry point never raises (the function is total by construction). -/
theorem qdrant_retrieval_missing_collection_empty (collectionExists : String → Bool)
    (hybrid : String → Except String (List Doc)) (score : String → String → ℚ)
    (fetch : String → String → String) (query : String) (top_k : ℕ)
    (collection_name : String) :
    (collectionExists collection_name = false →
      qdrant_retrieval collectionExists hybrid score fetch query top_k
        collection_name = []) ∧
    (∀ e, hybrid collection_name = Except.error e →
      qdrant_retrieval collectionExists hybrid score fetch query top_k
        collection_name = []) := by
  constructor
  · intro h
    unfold qdrant_retrieval
    simp [h]
  · intro e he
    exact qdrant_retrieval_of_error _ _ _ _ _ _ _ e he

/-- A vector index containing no collection, and a hybrid search that always
fails: concrete fixtures for witnesses. -/
def noIndex : String → Bool := fun _ => false

def failingHybrid : String → Except String (List Doc) := fun _ => Except.error "down"

def zeroScore : String → String → ℚ := fun _ _ => 0

def emptyFetch : String → String → String := fun _ _ => ""

/-- Witness for claim C4 at a concrete input. -/
theorem qdrant_retrieval_missing_collection_empty_witness :
    qdrant_retrieval noIndex failingHybrid zeroScore emptyFetch "q" 5 "ghost" = [] :=
  (qdrant_retrieval_missing_collection_empty noIndex failingHybrid zeroScore emptyFetch
    "q" 5 "ghost").1 rfl

/-- A sample document for concrete witnesses. -/
def docW : Doc := ⟨"body", "policy.pdf", "Returns", "id1"⟩

/-- Two organizational collections of organization orgO; the index knows
both; the hybrid search of col2 fails, col1 returns docW. -/
def dbTwo : List Collection :=
  [⟨"userA", "col1", some "orgO", false⟩, ⟨"userA", "col2", some "orgO", false⟩]

def allIndex : String → Bool := fun _ => true

def hybridCol2Fails : String → Except String (List Doc) := fun c =>
  if c = "col2" then Except.error "simulated index outage" else Except.ok [docW]

/-- Witness for claim C8 at a concrete input. -/
theorem multi_collection_fanout_isolation_witness :
    retrieve_from_collections dbTwo allIndex hybridCol2Fails zeroScore emptyFetch
        "q" "userA" (some "orgO") 5 true true =
      ((get_user_collections dbTwo "userA" (some "orgO") true true).flatMap (fun ci =>
        if ci.collection_name = "col2" then []
        else (qdrant_retrieval allIndex hybridCol2Fails zeroScore emptyFetch "q" 5
            ci.collection_name).map (tagDoc ci))).take 5 :=
  multi_collection_fanout_isolation dbTwo allIndex hybridCol2Fails zeroScore emptyFetch
    "q" "userA" (some "orgO") 5 true true "col2" "simulated index outage" rfl

/-- Claim C9: clear_cache is selective.  With both arguments it removes
exactly the role entry of that (user, organization) pair; with only a user it
removes that user entry of the user cache and every role entry of that user;
with only an organization it removes that organization entry of the org cache
and every role entry of that organization; with no arguments it empties all
three caches; in every selective case every entry outside the named scope is
unchanged. -/
theorem clear_cache_selective (st : RoleState) (u o : String)
    (hu : u ≠ "") (ho : o ≠ "") :
    ((clearCache (some u) (some o) st).roleCache (u, o) = none ∧
      (∀ k, k ≠ (u, o) → (clearCache (some u) (some o) st).roleCache k = st.roleCache k) ∧
      (clearCache (some u) (some o) st).userCache = st.userCache ∧
      (clearCache (some u) (some o) st).orgCache = st.orgCache) ∧
    ((clearCache (some u) none st).userCache u = none ∧
      (∀ k, k ≠ u → (clearCache (some u) none st).userCache k = st.userCache k) ∧
      (∀ k, (clearCache (some u) none st).roleCache k =
        if k.1 = u then none else st.roleCache k) ∧
      (clearCache (some u) none st).orgCache = st.orgCache) ∧
    ((clearCache none (some o) st).orgCache o = none ∧
      (∀ k, k ≠ o → (clearCache none (some o) st).orgCache k = st.orgCache k) ∧
      (∀ k, (clearCache none (some o) st).roleCache k =
        if k.2 = o then none else st.roleCache k) ∧
      (clearCache none (some o) st).userCache = st.userCache) ∧
    ((∀ k, (clearCache none none st).roleCache k = none) ∧
      (∀ k, (clearCache none none st).userCache k = none) ∧
      (∀ k, (clearCache none none st).orgCache k = none)) := by
  have hp : pyTruthy (some u) = true := by simp [pyTruthy, hu]
  have hq : pyTruthy (some o) = true := by simp [pyTruthy, ho]
  have hn : pyTruthy none = false := rfl
  refine ⟨⟨?_, ?_, ?_, ?_⟩, ⟨?_, ?_, ?_, ?_⟩, ⟨?_, ?_, ?_, ?_⟩, ⟨?_, ?_, ?_⟩⟩
  · simp [clearCache, hp, hq]
  · intro k hk
    simp [clearCache, hp, hq, hk]
  · simp [clearCache, hp, hq]
  · simp [clearCache, hp, hq]
  · simp [clearCache, hp, hn]
  · intro k hk
    simp [clearCache, hp, hn, hk]
  · intro k
    simp [clearCache, hp, hn]
  · simp [clearCache, hp, hn]
  · simp [clearCache, hq, hn]
  · intro k hk
    simp [clearCache, hq, hn, hk]
  · intro k
    simp [clearCache, hq, hn]
  · simp [clearCache, hq, hn]
  · intro k
    simp [clearCache, hn]
  · intro k
    simp [clearCache, hn]
  · intro k
    simp [clearCache, hn]

/-- Witness for claim C9 at a concrete input. -/
theorem clear_cache_selective_witness :
    ((clearCache (some "u1") (some "o1") initialRoleState).roleCache ("u1", "o1") = none ∧
      (∀ k, k ≠ ("u1", "o1") →
        (clearCache (some "u1") (some "o1") initialRoleState).roleCache k =
          initialRoleState.roleCache k) ∧
      (clearCache (some "u1") (some "o1") initialRoleState).userCache =
        initialRoleState.userCache ∧
      (clearCache (some "u1") (some "o1") initialRoleState).orgCache =
        initialRoleState.orgCache) ∧
    ((clearCache (some "u1") none initialRoleState).userCache "u1" = none ∧
      (∀ k, k ≠ "u1" → (clearCache (some "u1") none initialRoleState).userCache k =
        initialRoleState.userCache k) ∧
      (∀ k, (clearCache (some "u1") none initialRoleState).roleCache k =
        if k.1 = "u1" then none else initialRoleState.roleCache k) ∧
      (clearCache (some "u1") none initialRoleState).orgCache =
        initialRoleState.orgCache) ∧
    ((clearCache none (some "o1") initialRoleState).orgCache "o1" = none ∧
      (∀ k, k ≠ "o1" → (clearCache none (some "o1") initialRoleState).orgCache k =
        initialRoleState.orgCache k) ∧
      (∀ k, (clearCache none (some "o1") initialRoleState).roleCache k =
        if k.2 = "o1" then none else initialRoleState.roleCache k) ∧
      (clearCache none (some "o1") initialRoleState).userCache =
        initialRoleState.userCache) ∧
    ((∀ k, (clearCache none none initialRoleState).roleCache k = none) ∧
      (∀ k, (clearCache none none initialRoleState).userCache k = none) ∧
      (∀ k, (clearCache none none initialRoleState).orgCache k = none)) :=
  clear_cache_selective initialRoleState "u1" "o1" (by decide) (by decide)

/-- Claim C6: when the row the name lookup resolves is a personal
collection, check_collection_permission answers by ownership alone — true
exactly for the owning user, for every permission string and every supplied
organization id, ignoring any organizational role; and when no collection
row matches the name, it returns false (our embedding is a total function,
so no exception can escape). -/
theorem personal_collection_owner_only (db : List Collection) (store : IdStore)
    (now : ℕ) (user_id collection_name : String) (organization_id : Option String)
    (required_permission : String) :
    (∀ c, findCollection db collection_name = some c → c.is_personal = true →
      (check_collection_permission db store now user_id collection_name
          organization_id required_permission = true ↔ c.user_id = user_id)) ∧
    (findCollection db collection_name = none →
      check_collection_permission db store now user_id collection_name
        organization_id required_permission = false) := by
  constructor
  · intro c hc hpers
    unfold check_collection_permission
    rw [hc]
    simp [hpers]
  · intro hnone
    unfold check_collection_permission
    rw [hnone]

/-- User A owns the personal collection alpha; the identity store knows
nobody: fixture for the C6 witness. -/
def dbAlpha : List Collection := [⟨"A", "alpha", none, true⟩]

def storeEmpty : IdStore := ⟨fun _ => false, fun _ => []⟩

/-- Witness for claim C6 at a concrete input: user B, with no relation to
alpha, is denied read access. -/
theorem personal_collection_owner_only_witness :
    check_collection_permission dbAlpha storeEmpty 0 "B" "alpha" none "read" = false := by
  have h := (personal_collection_owner_only dbAlpha storeEmpty 0 "B" "alpha" none
    "read").1 ⟨"A", "alpha", none, true⟩ rfl rfl
  rw [Bool.eq_false_iff]
  intro hc
  exact absurd (h.mp hc) (by decide)

/-- One organizational collection, created by creator1 and owned by
organization orgO: fixture for claim C1. -/
def dbOrgColl : List Collection := [⟨"creator1", "colOrg", some "orgO", false⟩]

/-- Counterexample to claim C1 as stated.  First conjunct: the user mallory
holds no role at all in orgO (the identity store is empty), yet read access
to the organizational collection is granted as soon as the matching
organization id is supplied — the code never consults membership or role for
read.  Third conjunct: the creator of the collection, who by the claim should
be allowed to delete it, is denied when the supplied organization id does not
match (here None). -/
theorem org_collection_access_counterexample :
    check_collection_permission dbOrgColl storeEmpty 0 "mallory" "colOrg"
        (some "orgO") "read" = true ∧
    (getUserRole storeEmpty 0 "mallory" "orgO" initialRoleState).1 = none ∧
    check_collection_permission dbOrgColl storeEmpty 0 "creator1" "colOrg"
        none "delete" = false := by
  refine ⟨rfl, rfl, rfl⟩

/-- Claim C1 amended: for an organizational collection (the row the name
lookup resolves is non-personal with a truthy owning organization id corg),
check_collection_permission returns true iff the caller supplied exactly
organization_id = corg and, beyond that, read is granted unconditionally (no
membership or role check), while any other permission requires the caller to
be the stored creator or an ADMIN of corg per the identity store. -/
theorem org_collection_access_characterization (db : List Collection)
    (store : IdStore) (now : ℕ) (user_id collection_name : String)
    (organization_id : Option String) (required_permission : String)
    (c : Collection) (corg : String)
    (hfind : findCollection db collection_name = some c)
    (hpers : c.is_personal = false) (horg : c.organization_id = some corg)
    (hne : corg ≠ "") :
    check_collection_permission db store now user_id collection_name
        organization_id required_permission = true ↔
      (organization_id = some corg ∧
        (required_permission = "read" ∨ c.user_id = user_id ∨
          is_admin store now user_id corg = true)) := by
  unfold check_collection_permission
  rw [hfind]
  simp only [hpers, horg, Bool.if_false_left]
  by_cases hoid : organization_id = some corg
  · simp [hoid, hne]
  · simp [hoid, hne]

/-- Witness for the amended claim C1 at a concrete input: the creator is
granted write access once the matching organization id is supplied. -/
theorem org_collection_access_characterization_witness :
    check_collection_permission dbOrgColl storeEmpty 0 "creator1" "colOrg"
        (some "orgO") "write" = true :=
  (org_collection_access_characterization dbOrgColl storeEmpty 0 "creator1" "colOrg"
      (some "orgO") "write" ⟨"creator1", "colOrg", some "orgO", false⟩ "orgO"
      rfl rfl rfl (by decide)).mpr ⟨rfl, Or.inr (Or.inl rfl)⟩

theorem cacheMembershipRows_spec (user_id : String) (now : ℕ)
    (rows : List (String × ℕ)) (st : RoleState) :
    (rows.foldl (cacheMembershipRow user_id now) st).lookups = st.lookups ∧
    (rows.foldl (cacheMembershipRow user_id now) st).userCache = st.userCache ∧
    ∀ k, (rows.foldl (cacheMembershipRow user_id now) st).roleCache k = st.roleCache k ∨
      ∃ v, (rows.foldl (cacheMembershipRow user_id now) st).roleCache k = some (v, now) := by
  induction rows generalizing st with
  | nil => exact ⟨rfl, rfl, fun k => Or.inl rfl⟩
  | cons p rs ih =>
    obtain ⟨h1, h2, h3⟩ := ih (cacheMembershipRow user_id now st p)
    simp only [List.foldl_cons]
    refine ⟨h1, h2, fun k => ?_⟩
    rcases h3 k with h | ⟨v, hv⟩
    · rw [h]
      simp only [cacheMembershipRow]
      by_cases hk : k = (user_id, p.1)
      · exact Or.inr ⟨some (roleName p.2), by simp [hk]⟩
      · exact Or.inl (by simp [hk])
    · exact Or.inr ⟨v, hv⟩

theorem fetchUserInfo_spec (store : IdStore) (now : ℕ) (user_id : String)
    (st : RoleState) (hu : store.users user_id = true) :
    fetchUserInfo store now user_id st =
      (some ⟨(store.memberships user_id).map (fun p => (p.1, roleName p.2))⟩,
        (fetchUserInfo store now user_id st).2) ∧
    (fetchUserInfo store now user_id st).2.lookups = st.lookups + 1 ∧
    (fetchUserInfo store now user_id st).2.userCache user_id =
      some (⟨(store.memberships user_id).map (fun p => (p.1, roleName p.2))⟩, now) ∧
    ∀ k, (fetchUserInfo store now user_id st).2.roleCache k = st.roleCache k ∨
      ∃ v, (fetchUserInfo store now user_id st).2.roleCache k = some (v, now) := by
  obtain ⟨h1, h2, h3⟩ := cacheMembershipRows_spec user_id now
    (store.memberships user_id) { st with lookups := st.lookups + 1 }
  refine ⟨?_, ?_, ?_, ?_⟩
  · unfold fetchUserInfo
    simp [hu]
  · unfold fetchUserInfo
    simp only [hu, Bool.true_eq_false, if_false]
    exact h1
  · unfold fetchUserInfo
    simp only [hu, Bool.true_eq_false, if_false]
    simp
  · unfold fetchUserInfo
    simp only [hu, Bool.true_eq_false, if_false]
    exact fun k => h3 k

theorem getUserRole_initial (store : IdStore) (now : ℕ) (u o : String)
    (hu : store.users u = true) :
    getUserRole store now u o initialRoleState =
      (dictLookup ((store.memberships u).map (fun p => (p.1, roleName p.2))) o,
        (fetchUserInfo store now u initialRoleState).2) := by
  have hfe := (fetchUserInfo_spec store now u initialRoleState hu).1
  have h0 : initialRoleState.userCache u = none := rfl
  have h1 : initialRoleState.roleCache (u, o) = none := rfl
  rcases hres : fetchUserInfo store now u initialRoleState with ⟨i, s⟩
  rw [hres] at hfe
  have hi : i = some ⟨(store.memberships u).map (fun p => (p.1, roleName p.2))⟩ :=
    congrArg Prod.fst hfe
  subst hi
  unfold getUserRole getUserRoleMiss getUserInfoWithRoles
  simp only [h0, h1, hres]

theorem getUserRole_cached_noop (store : IdStore) (now : ℕ) (u o : String)
    (st : RoleState)
    (huc : ∃ info ts, st.userCache u = some (info, ts) ∧ isCacheValid now ts = true)
    (hrc : st.roleCache (u, o) = none ∨
      ∃ v ts, st.roleCache (u, o) = some (v, ts) ∧ isCacheValid now ts = true) :
    (getUserRole store now u o st).2 = st := by
  obtain ⟨info, ts, hinfo, hvalid⟩ := huc
  rcases hrc with hnone | ⟨v, ts2, hsome, hvalid2⟩
  · unfold getUserRole getUserRoleMiss getUserInfoWithRoles
    simp only [hnone, hinfo, hvalid, if_true]
  · unfold getUserRole
    simp only [hsome, hvalid2, if_true]

theorem getUserRole_stale_refetch (store : IdStore) (now : ℕ) (u o : String)
    (st : RoleState) (hu : store.users u = true)
    (huc : ∃ info ts, st.userCache u = some (info, ts) ∧ isCacheValid now ts = false)
    (hrc : st.roleCache (u, o) = none ∨
      ∃ v ts, st.roleCache (u, o) = some (v, ts) ∧ isCacheValid now ts = false) :
    (getUserRole store now u o st).2.lookups = st.lookups + 1 := by
  obtain ⟨info, ts, hinfo, hstale⟩ := huc
  have hfe := (fetchUserInfo_spec store now u st hu).1
  have hlk := (fetchUserInfo_spec store now u st hu).2.1
  rcases hres : fetchUserInfo store now u st with ⟨i, s⟩
  rw [hres] at hfe hlk
  have hi : i = some ⟨(store.memberships u).map (fun p => (p.1, roleName p.2))⟩ :=
    congrArg Prod.fst hfe
  subst hi
  rcases hrc with hnone | ⟨v, ts2, hsome, hstale2⟩
  · unfold getUserRole getUserRoleMiss getUserInfoWithRoles
    simp only [hnone, hinfo, hstale, Bool.false_eq_true, if_false, hres]
    exact hlk
  · unfold getUserRole getUserRoleMiss getUserInfoWithRoles
    simp only [hsome, hstale2, hinfo, hstale, Bool.false_eq_true, if_false, hres]
    exact hlk

/-- Claim C5 amended: for a user the identity store knows, two get_user_role
calls within one TTL window perform exactly one authoritative identity-store
lookup (it happens during the first call; the second call is served from the
role cache or the user-info cache and performs none), and a further call
after the TTL has elapsed treats every cache entry as absent and performs a
second authoritative lookup.  For a user absent from the store the first
call alone already performs two lookups (the user-info lookup and then the
direct role query), refuting the unrestricted claim. -/
theorem role_cache_ttl_behavior (store : IdStore) (u o : String) (t0 t1 t2 : ℕ)
    (hu : store.users u = true) (hwin : t1 < t0 + cacheTTL)
    (ht2 : t0 + cacheTTL ≤ t2) :
    ((getUserRole store t0 u o initialRoleState).2).lookups = 1 ∧
    ((getUserRole store t1 u o
        (getUserRole store t0 u o initialRoleState).2).2).lookups = 1 ∧
    ((getUserRole store t2 u o
        (getUserRole store t1 u o
          (getUserRole store t0 u o initialRoleState).2).2).2).lookups = 2 := by
  have hini := getUserRole_initial store t0 u o hu
  have hspec := fetchUserInfo_spec store t0 u initialRoleState hu
  have hst1 : (getUserRole store t0 u o initialRoleState).2 =
      (fetchUserInfo store t0 u initialRoleState).2 := by rw [hini]
  have hlk1 : (fetchUserInfo store t0 u initialRoleState).2.lookups = 1 := hspec.2.1
  have huc1 := hspec.2.2.1
  have hrc1 : ∀ k, (fetchUserInfo store t0 u initialRoleState).2.roleCache k = none ∨
      ∃ v, (fetchUserInfo store t0 u initialRoleState).2.roleCache k = some (v, t0) := by
    intro k
    rcases hspec.2.2.2 k with h | h
    · exact Or.inl h
    · exact Or.inr h
  have hv1 : isCacheValid t1 t0 = true := by
    simp only [isCacheValid, cacheTTL, decide_eq_true_eq]
    simp only [cacheTTL] at hwin
    omega
  have hv2 : isCacheValid t2 t0 = false := by
    simp only [isCacheValid, cacheTTL, decide_eq_false_iff_not]
    simp only [cacheTTL] at ht2
    omega
  have hrcnoop : (fetchUserInfo store t0 u initialRoleState).2.roleCache (u, o) = none ∨
      ∃ v ts, (fetchUserInfo store t0 u initialRoleState).2.roleCache (u, o) =
        some (v, ts) ∧ isCacheValid t1 ts = true := by
    rcases hrc1 (u, o) with h | ⟨v, h⟩
    · exact Or.inl h
    · exact Or.inr ⟨v, t0, h, hv1⟩
  have hnoop : (getUserRole store t1 u o
      (fetchUserInfo store t0 u initialRoleState).2).2 =
      (fetchUserInfo store t0 u initialRoleState).2 :=
    getUserRole_cached_noop store t1 u o _ ⟨_, t0, huc1, hv1⟩ hrcnoop
  have hrcstale : (fetchUserInfo store t0 u initialRoleState).2.roleCache (u, o) = none ∨
      ∃ v ts, (fetchUserInfo store t0 u initialRoleState).2.roleCache (u, o) =
        some (v, ts) ∧ isCacheValid t2 ts = false := by
    rcases hrc1 (u, o) with h | ⟨v, h⟩
    · exact Or.inl h
    · exact Or.inr ⟨v, t0, h, hv2⟩
  have hstale : (getUserRole store t2 u o
      (fetchUserInfo store t0 u initialRoleState).2).2.lookups =
      (fetchUserInfo store t0 u initialRoleState).2.lookups + 1 :=
    getUserRole_stale_refetch store t2 u o _ hu ⟨_, t0, huc1, hv2⟩ hrcstale
  refine ⟨?_, ?_, ?_⟩
  · rw [hst1]
    exact hlk1
  · rw [hst1, hnoop]
    exact hlk1
  · rw [hst1, hnoop, hstale, hlk1]

/-- An identity store knowing exactly the user alice, a USER member of
organization orgO. -/
def storeAlice : IdStore :=
  ⟨fun u => u == "alice", fun u => if u == "alice" then [("orgO", 90)] else []⟩

/-- Witness for the amended claim C5 at a concrete input: calls at times 0
and 10 (within the 300 second TTL) and at time 400 (past the TTL). -/
theorem role_cache_ttl_behavior_witness :
    ((getUserRole storeAlice 0 "alice" "orgO" initialRoleState).2).lookups = 1 ∧
    ((getUserRole storeAlice 10 "alice" "orgO"
        (getUserRole storeAlice 0 "alice" "orgO" initialRoleState).2).2).lookups = 1 ∧
    ((getUserRole storeAlice 400 "alice" "orgO"
        (getUserRole storeAlice 10 "alice" "orgO"
          (getUserRole storeAlice 0 "alice" "orgO" initialRoleState).2).2).2).lookups = 2 :=
  role_cache_ttl_behavior storeAlice "alice" "orgO" 0 10 400 rfl (by decide) (by decide)

/-- Counterexample to claim C5 as stated.  For a user the identity store
does not know, the first get_user_role call performs the user-info lookup
and then the direct role query: two authoritative lookups, where the claim
promises exactly one for the whole within-TTL window; the repeated call at
time 1 serves the cached negative entry and adds none, leaving the counter
at 2. -/
theorem role_cache_ttl_counterexample :
    ((getUserRole storeEmpty 1 "u" "o"
        (getUserRole storeEmpty 0 "u" "o" initialRoleState).2).2).lookups = 2 := rfl

theorem bumpScore_keys (key : String) (l : List (String × Doc × ℕ)) :
    (bumpScore key l).map (fun e => e.1) = l.map (fun e => e.1) := by
  induction l with
  | nil => rfl
  | cons e rest ih =>
    unfold bumpScore
    by_cases he : e.1 = key
    · simp [he]
    · simp [he, ih]

theorem bumpScore_spec (key : String) (l : List (String × Doc × ℕ))
    (hnd : (l.map (fun e => e.1)).Nodup) :
    ∀ e', e' ∈ bumpScore key l →
      (e'.1 = key ∧ ∃ e, e ∈ l ∧ e.1 = key ∧ e' = (e.1, e.2.1, e.2.2 + 1)) ∨
      (e'.1 ≠ key ∧ e' ∈ l) := by
  induction l with
  | nil =>
    intro e' he'
    simp [bumpScore] at he'
  | cons e rest ih =>
    intro e' he'
    simp only [List.map_cons, List.nodup_cons] at hnd
    by_cases he : e.1 = key
    · unfold bumpScore at he'
      rw [if_pos he] at he'
      rcases List.mem_cons.mp he' with h | h
      · exact Or.inl ⟨by rw [h, he], e, List.mem_cons_self e rest, he, h⟩
      · refine Or.inr ⟨?_, List.mem_cons_of_mem e h⟩
        intro hk
        exact hnd.1 (by rw [he, ← hk]; exact List.mem_map_of_mem (fun x => x.1) h)
    · unfold bumpScore at he'
      rw [if_neg he] at he'
      rcases List.mem_cons.mp he' with h | h
      · refine Or.inr ⟨?_, ?_⟩
        · rw [h]
          exact he
        · rw [h]
          exact List.mem_cons_self e rest
      · rcases ih hnd.2 e' h with ⟨h1, f, hf, hfk, hef⟩ | ⟨h1, h2⟩
        · exact Or.inl ⟨h1, f, List.mem_cons_of_mem e hf, hfk, hef⟩
        · exact Or.inr ⟨h1, List.mem_cons_of_mem e h2⟩

/-- Invariant of the query_headers grouping loop: after processing the
prefix pre, the accumulated dict has pairwise distinct headers keys, its key
set is exactly the headers seen in pre, each stored document carries its key
as headers, and each score counts the chunks of pre with that headers. -/
def qhInv (pre : List Doc) (acc : List (String × Doc × ℕ)) : Prop :=
  (acc.map (fun e => e.1)).Nodup ∧
  (∀ h, h ∈ acc.map (fun e => e.1) ↔ h ∈ pre.map (fun d => d.headers)) ∧
  (∀ e ∈ acc, e.2.1.headers = e.1) ∧
  (∀ e ∈ acc, e.2.2 = pre.countP (fun d => d.headers == e.1))

theorem queryHeadersStep_inv (fetch : String → String → String) (pre : List Doc)
    (acc : List (String × Doc × ℕ)) (d : Doc) (hinv : qhInv pre acc) :
    qhInv (pre ++ [d]) (queryHeadersStep fetch acc d) := by
  obtain ⟨hnd, hiff, hhead, hcnt⟩ := hinv
  unfold queryHeadersStep
  by_cases hany : acc.any (fun e => e.1 == d.headers)
  · rw [if_pos hany]
    have hk : d.headers ∈ acc.map (fun e => e.1) := by
      rcases List.any_eq_true.mp hany with ⟨e, he, heq⟩
      rw [← eq_of_beq heq]
      exact List.mem_map_of_mem (fun e => e.1) he
    refine ⟨?_, ?_, ?_, ?_⟩
    · rw [bumpScore_keys]
      exact hnd
    · intro h
      rw [bumpScore_keys]
      simp only [List.map_append, List.map_cons, List.map_nil, List.mem_append,
        List.mem_singleton]
      constructor
      · intro hmem
        exact Or.inl ((hiff h).mp hmem)
      · intro hmem
        rcases hmem with hmem | hmem
        · exact (hiff h).mpr hmem
        · rw [hmem]
          exact hk
    · intro e' he'
      rcases bumpScore_spec d.headers acc hnd e' he' with ⟨_, e, he, _, heq⟩ | ⟨_, h2⟩
      · rw [heq]
        exact hhead e he
      · exact hhead e' h2
    · intro e' he'
      rcases bumpScore_spec d.headers acc hnd e' he' with ⟨h1, e, he, hek, heq⟩ | ⟨h1, h2⟩
      · rw [List.countP_append]
        have hde : (d.headers == e'.1) = true := by
          rw [h1]
          exact beq_self_eq_true d.headers
        have hcd : List.countP (fun x => x.headers == e'.1) [d] = 1 := by
          simp [List.countP_cons, hde]
        rw [hcd]
        have he1 : e'.1 = e.1 := by rw [heq]
        have he2 : e'.2.2 = e.2.2 + 1 := by rw [heq]
        rw [he2, he1, hcnt e he]
      · rw [List.countP_append]
        have hde : (d.headers == e'.1) = false := by
          rw [beq_eq_false_iff_ne]
          exact fun hx => h1 hx.symm
        have hcd : List.countP (fun x => x.headers == e'.1) [d] = 0 := by
          simp [List.countP_cons, hde]
        rw [hcd, Nat.add_zero]
        exact hcnt e' h2
  · rw [if_neg hany]
    have hnk : d.headers ∉ acc.map (fun e => e.1) := by
      intro hmem
      rcases List.mem_map.mp hmem with ⟨e, he, heq⟩
      exact (List.any_eq_false.mp (Bool.not_eq_true _ ▸ hany) e he)
        (by rw [heq]; exact beq_self_eq_true d.headers)
    refine ⟨?_, ?_, ?_, ?_⟩
    · rw [List.map_append]
      rw [List.nodup_append]
      refine ⟨hnd, List.nodup_singleton _, ?_⟩
      intro x hx hx2
      simp only [List.map_cons, List.map_nil, List.mem_singleton] at hx2
      exact hnk (hx2 ▸ hx)
    · intro h
      simp only [List.map_append, List.mem_append, List.map_cons, List.map_nil,
        List.mem_singleton]
      constructor
      · intro hmem
        rcases hmem with hmem | hmem
        · exact Or.inl ((hiff h).mp hmem)
        · exact Or.inr hmem
      · intro hmem
        rcases hmem with hmem | hmem
        · exact Or.inl ((hiff h).mpr hmem)
        · exact Or.inr hmem
    · intro e' he'
      rcases List.mem_append.mp he' with h | h
      · exact hhead e' h
      · rw [List.mem_singleton.mp h]
        rfl
    · intro e' he'
      rcases List.mem_append.mp he' with h | h
      · rw [List.countP_append]
        have hne : e'.1 ≠ d.headers := by
          intro hx
          exact hnk (hx ▸ List.mem_map_of_mem (fun e => e.1) h)
        have hde : (d.headers == e'.1) = false := by
          rw [beq_eq_false_iff_ne]
          exact fun hx => hne hx.symm
        have hcd : List.countP (fun x => x.headers == e'.1) [d] = 0 := by
          simp [List.countP_cons, hde]
        rw [hcd, Nat.add_zero]
        exact hcnt e' h
      · rw [List.mem_singleton.mp h]
        simp only [List.countP_append]
        have hzero : List.countP (fun x => x.headers == d.headers) pre = 0 := by
          rw [List.countP_eq_zero]
          intro a ha
          intro hx
          have : d.headers ∈ pre.map (fun x => x.headers) := by
            rw [← eq_of_beq hx]
            exact List.mem_map_of_mem (fun x => x.headers) ha
          exact hnk ((hiff d.headers).mpr this)
        rw [hzero]
        simp [List.countP_cons]

theorem queryHeadersEntries_inv (fetch : String → String → String)
    (documents : List Doc) :
    qhInv documents (queryHeadersEntries fetch documents) := by
  suffices h : ∀ (docs : List Doc) (pre : List Doc) (acc : List (String × Doc × ℕ)),
      qhInv pre acc → qhInv (pre ++ docs) (docs.foldl (queryHeadersStep fetch) acc) by
    have h0 : qhInv [] [] := ⟨List.nodup_nil, by simp, by simp, by simp⟩
    have := h documents [] [] h0
    simpa [queryHeadersEntries] using this
  intro docs
  induction docs with
  | nil =>
    intro pre acc h
    simpa using h
  | cons d ds ih =>
    intro pre acc h
    have h1 := queryHeadersStep_inv fetch pre acc d h
    have h2 := ih (pre ++ [d]) _ h1
    rw [List.append_cons] at h2
    simpa using h2

/-- Claim C2 amended: query_headers groups by the headers value ALONE, not
by the (document_name, headers) pair.  The output contains exactly one
reassembled section per distinct headers value occurring in the input (its
headers values are pairwise distinct and cover exactly the input headers
values), and each entry of the grouping dict carries, as its recurrence
score, the number of input chunks whose headers equal that key — chunks of a
different document that share the headers string are folded into the same
section. -/
theorem reassembly_one_section_per_headers (fetch : String → String → String)
    (documents : List Doc) :
    ((query_headers fetch documents).map (fun d => d.headers)).Nodup ∧
    (∀ h, h ∈ (query_headers fetch documents).map (fun d => d.headers) ↔
      h ∈ documents.map (fun d => d.headers)) ∧
    (∀ e ∈ queryHeadersEntries fetch documents,
      e.2.2 = documents.countP (fun d => d.headers == e.1)) := by
  obtain ⟨hnd, hiff, hhead, hcnt⟩ := queryHeadersEntries_inv fetch documents
  have hperm := pySortedByDesc_perm (fun e : String × Doc × ℕ => (e.2.2 : ℚ))
    (queryHeadersEntries fetch documents)
  have hmapeq : (query_headers fetch documents).map (fun d => d.headers) =
      (pySortedByDesc (fun e : String × Doc × ℕ => (e.2.2 : ℚ))
        (queryHeadersEntries fetch documents)).map (fun e => e.1) := by
    unfold query_headers
    rw [List.map_map]
    apply List.map_congr_left
    intro e he
    exact hhead e (hperm.mem_iff.mp he)
  have hpermmap := hperm.map (fun e : String × Doc × ℕ => e.1)
  refine ⟨?_, ?_, ?_⟩
  · rw [hmapeq]
    exact hpermmap.nodup_iff.mpr hnd
  · intro h
    rw [hmapeq, hpermmap.mem_iff]
    exact hiff h
  · exact hcnt

/-- Two chunks from different documents sharing the headers string Returns:
fixture for claim C2. -/
def docH1 : Doc := ⟨"x", "policy.pdf", "Returns", "i1"⟩

def docH2 : Doc := ⟨"y", "faq.pdf", "Returns", "i2"⟩

/-- Counterexample to claim C2 as stated: the input carries two distinct
(document_name, headers) keys, but query_headers returns a single
reassembled section, because its grouping dict is keyed by headers alone;
the single entry has recurrence score 2 although each (document_name,
headers) key occurs only once. -/
theorem reassembly_counterexample :
    (query_headers emptyFetch [docH1, docH2]).length = 1 ∧
    (([docH1, docH2].map (fun d => (d.document_name, d.headers))).dedup).length = 2 ∧
    queryHeadersEntries emptyFetch [docH1, docH2] =
      [("Returns", reassembledContent emptyFetch docH1, 2)] := by
  refine ⟨rfl, by decide, rfl⟩

/-- Witness for the amended claim C2 at a concrete input: the single entry
counts both chunks carrying the headers value Returns. -/
theorem reassembly_one_section_per_headers_witness :
    (("Returns", reassembledContent emptyFetch docH1, 2) : String × Doc × ℕ).2.2 =
      [docH1, docH2].countP (fun d => d.headers == "Returns") :=
  (reassembly_one_section_per_headers emptyFetch [docH1, docH2]).2.2
    ("Returns", reassembledContent emptyFetch docH1, 2) (by decide)

/-- Default document used with getD at indices known to be in bounds. -/
def anyDoc : Doc := ⟨"", "", "", ""⟩

/-- The relevance score _query_retrieval_reranking assigns to a candidate:
the oracle applied to the query and the stripped content. -/
def candScore (score : String → String → ℚ) (query : String) (c : Doc) : ℚ :=
  score query (pyStrip c.page_content)

theorem filterMap_map_eq_map {α β γ : Type} (l : List α) (g : α → β)
    (f : β → Option γ) (h : α → γ) (hfg : ∀ x ∈ l, f (g x) = some (h x)) :
    (l.map g).filterMap f = l.map h := by
  induction l with
  | nil => rfl
  | cons a rest ih =>
    simp only [List.map_cons, List.filterMap_cons, hfg a (List.mem_cons_self a rest)]
    rw [ih (fun x hx => hfg x (List.mem_cons_of_mem a hx))]

theorem map_getD_range {α : Type} (l : List α) (d : α) :
    (List.range l.length).map (fun i => l.getD i d) = l := by
  apply List.ext_getElem
  · simp
  · intro i h1 h2
    simp only [List.getElem_map, List.getElem_range]
    exact List.getD_eq_getElem l d h2

theorem zip_self_map {α β : Type} (l : List α) (f : α → β) :
    l.zip (l.map f) = l.map (fun a => (a, f a)) := by
  induction l with
  | nil => rfl
  | cons a rest ih => simp [List.zip_cons_cons, ih]

theorem find_strip_unique (l : List Doc)
    (hnd : (l.map (fun c => pyStrip c.page_content)).Nodup) (c : Doc) (hc : c ∈ l) :
    l.find? (fun x => pyStrip x.page_content == pyStrip c.page_content) = some c := by
  induction l with
  | nil => cases hc
  | cons a rest ih =>
    simp only [List.map_cons, List.nodup_cons] at hnd
    rcases List.mem_cons.mp hc with h | h
    · rw [h]
      rw [List.find?_cons_of_pos]
      exact beq_self_eq_true _
    · rw [List.find?_cons_of_neg, ih hnd.2 h]
      intro hpos
      have heq := eq_of_beq hpos
      exact hnd.1 (heq ▸ List.mem_map_of_mem (fun c => pyStrip c.page_content) h)

theorem contentToResult_of_mem (cands : List Doc)
    (hnd : (cands.map (fun c => pyStrip c.page_content)).Nodup) (c : Doc)
    (hc : c ∈ cands) :
    contentToResult cands (pyStrip c.page_content) = some c := by
  unfold contentToResult
  apply find_strip_unique
  · rw [List.map_reverse]
    exact List.nodup_reverse.mpr hnd
  · exact List.mem_reverse.mpr hc

theorem rerank_characterization (score : String → String → ℚ) (query : String)
    (cands : List Doc) (t : ℚ)
    (hnd : (cands.map (fun c => pyStrip c.page_content)).Nodup) :
    query_retrieval_reranking score query cands t =
      ((pySortedByDesc (fun i => (cands.map (candScore score query)).getD i 0)
          (List.range cands.length)).filter
        (fun i => t ≤ (cands.map (candScore score query)).getD i 0)).map
        (fun i => cands.getD i anyDoc) := by
  by_cases hc : cands.isEmpty
  · have hnil : cands = [] := List.isEmpty_iff.mp hc
    subst hnil
    rfl
  · have hscores : (cands.map (fun c => (query, pyStrip c.page_content))).map
        (fun p => score p.1 p.2) = cands.map (candScore score query) := by
      rw [List.map_map]
      rfl
    unfold query_retrieval_reranking
    rw [if_neg (by simp [hc])]
    dsimp only
    rw [hscores]
    rw [zip_self_map]
    rw [List.filter_map, List.map_map, List.map_map]
    have hlen : ((cands.map (candScore score query)).length) = cands.length :=
      List.length_map _ _
    rw [hlen]
    apply filterMap_map_eq_map
    intro i hi
    have hilt : i < cands.length := by
      have h1 : i ∈ pySortedByDesc (fun i => (cands.map (candScore score query)).getD i 0)
          (List.range cands.length) := List.mem_of_mem_filter hi
      have h2 : i ∈ List.range cands.length :=
        (pySortedByDesc_perm _ _).mem_iff.mp h1
      exact List.mem_range.mp h2
    have hpair : (cands.map (fun c => (query, pyStrip c.page_content))).getD i
        (query, "") = (query, pyStrip ((cands.getD i anyDoc).page_content)) := by
      rw [List.getD_eq_getElem _ _ (by simpa using hilt),
        List.getD_eq_getElem cands anyDoc hilt, List.getElem_map]
    show contentToResult cands
        ((cands.map (fun c => (query, pyStrip c.page_content))).getD i (query, "")).2 =
      some (cands.getD i anyDoc)
    rw [hpair]
    exact contentToResult_of_mem cands hnd (cands.getD i anyDoc)
      (by rw [List.getD_eq_getElem cands anyDoc hilt]; exact List.getElem_mem hilt)

theorem scoreS_getD (score : String → String → ℚ) (query : String)
    (cands : List Doc) (i : ℕ) (h : i < cands.length) :
    (cands.map (candScore score query)).getD i 0 =
      candScore score query (cands.getD i anyDoc) := by
  rw [List.getD_eq_getElem _ _ (by simpa using h),
    List.getD_eq_getElem cands anyDoc h, List.getElem_map]

/-- Claim C3 amended: provided the candidates have pairwise distinct stripped
contents, _query_retrieval_reranking returns a sub-multiset of the input
candidate objects (each returned element is one of the originals, none
duplicated), sorted by descending relevance score, and every returned
element scores at least the threshold.  Without the distinctness proviso the
content-keyed dict aliases candidates of equal stripped content and the
result can repeat one original while dropping another. -/
theorem rerank_filter_sort_properties (score : String → String → ℚ)
    (query : String) (cands : List Doc) (t : ℚ)
    (hnd : (cands.map (fun c => pyStrip c.page_content)).Nodup) :
    (query_retrieval_reranking score query cands t).Subperm cands ∧
    (query_retrieval_reranking score query cands t).Sorted
      (fun a b => candScore score query b ≤ candScore score query a) ∧
    ∀ d ∈ query_retrieval_reranking score query cands t,
      t ≤ candScore score query d := by
  have hchar := rerank_characterization score query cands t hnd
  have hmemlt : ∀ i, i ∈ ((pySortedByDesc
      (fun i => (cands.map (candScore score query)).getD i 0)
      (List.range cands.length)).filter
        (fun i => t ≤ (cands.map (candScore score query)).getD i 0)) →
      i < cands.length := by
    intro i hi
    have h1 := List.mem_of_mem_filter hi
    have h2 := (pySortedByDesc_perm _ _).mem_iff.mp h1
    exact List.mem_range.mp h2
  refine ⟨?_, ?_, ?_⟩
  · rw [hchar]
    have hsub : ((pySortedByDesc
        (fun i => (cands.map (candScore score query)).getD i 0)
        (List.range cands.length)).filter
          (fun i => t ≤ (cands.map (candScore score query)).getD i 0)).Sublist
        (pySortedByDesc (fun i => (cands.map (candScore score query)).getD i 0)
          (List.range cands.length)) := List.filter_sublist _
    have hmapsub := hsub.map (fun i => cands.getD i anyDoc)
    have hperm := (pySortedByDesc_perm
      (fun i => (cands.map (candScore score query)).getD i 0)
      (List.range cands.length)).map (fun i => cands.getD i anyDoc)
    rw [map_getD_range cands anyDoc] at hperm
    exact hmapsub.subperm.trans hperm.subperm
  · rw [hchar]
    have hsorted := (pySortedByDesc_sorted
      (fun i => (cands.map (candScore score query)).getD i 0)
      (List.range cands.length)).filter
      (fun i => decide (t ≤ (cands.map (candScore score query)).getD i 0))
    have hsorted2 : ((pySortedByDesc
        (fun i => (cands.map (candScore score query)).getD i 0)
        (List.range cands.length)).filter
          (fun i => t ≤ (cands.map (candScore score query)).getD i 0)).Pairwise
        (fun i j => candScore score query (cands.getD j anyDoc) ≤
          candScore score query (cands.getD i anyDoc)) := by
      refine hsorted.imp_of_mem ?_
      intro a b ha hb hab
      rw [← scoreS_getD score query cands a (hmemlt a ha),
        ← scoreS_getD score query cands b (hmemlt b hb)]
      exact hab
    exact hsorted2.map (fun i => cands.getD i anyDoc) (fun a b h => h)
  · rw [hchar]
    intro d hd
    rcases List.mem_map.mp hd with ⟨i, hi, hdi⟩
    have hlt := hmemlt i hi
    have hpred := List.of_mem_filter hi
    have ht : t ≤ (cands.map (candScore score query)).getD i 0 :=
      of_decide_eq_true hpred
    rw [scoreS_getD score query cands i hlt] at ht
    rw [← hdi]
    exact ht

/-- Two distinct candidate objects with the same (stripped) content:
fixture for claim C3. -/
def dupA : Doc := ⟨"c", "docA", "", "a"⟩

def dupB : Doc := ⟨"c", "docB", "", "b"⟩

def oneScore : String → String → ℚ := fun _ _ => 1

/-- Counterexample to claim C3 as stated: with two candidates sharing the
stripped content c (distinct metadata), the content-to-candidate dict keeps
only the later object, so the result is the later candidate twice: not a
subsequence (or even sub-multiset) of the input, and the first candidate
object, with its metadata, is lost. -/
theorem rerank_counterexample :
    query_retrieval_reranking oneScore "q" [dupA, dupB] 0 = [dupB, dupB] ∧
    ¬ (query_retrieval_reranking oneScore "q" [dupA, dupB] 0).Subperm
        [dupA, dupB] := by
  constructor
  · rfl
  · decide

/-- Two candidates with distinct contents: fixture for the C3 witness. -/
def wDocA : Doc := ⟨"aa", "d1", "", "1"⟩

def wDocB : Doc := ⟨"bb", "d2", "", "2"⟩

/-- Witness for the amended claim C3 at a concrete input. -/
theorem rerank_filter_sort_properties_witness :
    (query_retrieval_reranking oneScore "q" [wDocA, wDocB] 0).Subperm
        [wDocA, wDocB] ∧
    (query_retrieval_reranking oneScore "q" [wDocA, wDocB] 0).Sorted
      (fun a b => candScore oneScore "q" b ≤ candScore oneScore "q" a) ∧
    ∀ d ∈ query_retrieval_reranking oneScore "q" [wDocA, wDocB] 0,
      (0 : ℚ) ≤ candScore oneScore "q" d :=
  rerank_filter_sort_properties oneScore "q" [wDocA, wDocB] 0 (by decide)

theorem isExn_eq_false {r : EncodeResult} (h : r ≠ EncodeResult.exn) :
    isExn r = false := by
  cases r with
  | ok v => rfl
  | noData => rfl
  | exn => exact absurd rfl h

theorem process_candidates_exn_empty (encode : String → EncodeResult)
    (cosv : List ℚ → List ℚ → ℚ) (candidates : List Cand) (query : String)
    (threshold : ℚ) (c : Cand) (hc : c ∈ candidates)
    (hexn : encode c.content = EncodeResult.exn) :
    process_candidates encode cosv candidates query threshold = [] := by
  unfold process_candidates
  by_cases h0 : query = "" ∨ candidates.isEmpty = true
  · rw [if_pos (by simpa using h0)]
  · rw [if_neg (by simpa using h0)]
    rw [if_pos (List.any_eq_true.mpr ⟨c, hc, by rw [hexn]; rfl⟩)]

theorem process_candidates_all_noData_empty (encode : String → EncodeResult)
    (cosv : List ℚ → List ℚ → ℚ) (candidates : List Cand) (query : String)
    (threshold : ℚ)
    (hall : ∀ c ∈ candidates, encode c.content = EncodeResult.noData) :
    process_candidates encode cosv candidates query threshold = [] := by
  unfold process_candidates
  by_cases h0 : query = "" ∨ candidates.isEmpty = true
  · rw [if_pos (by simpa using h0)]
  · rw [if_neg (by simpa using h0)]
    have hany : (candidates.any (fun c => isExn (encode c.content))) = false := by
      rw [List.any_eq_false]
      intro c hc
      rw [hall c hc]
      simp [isExn]
    rw [hany]
    rw [if_neg (by simp)]
    by_cases hq : isExn (encode query) = true
    · rw [if_pos hq]
    · rw [if_neg hq]
      have hts : batchTargetSize encode candidates = 0 := by
        unfold batchTargetSize
        have hfil : ((candidates.map (fun c => encData (encode c.content))).filter
            (fun e => decide (0 < e.length))) = [] := by
          rw [List.filter_eq_nil_iff]
          intro e he
          rcases List.mem_map.mp he with ⟨c, hc, hce⟩
          rw [← hce, hall c hc]
          simp [encData]
        rw [hfil]
        rfl
      rw [if_pos hts]

theorem dictInsert_fresh (k : String) (v : ℚ) (l : List (String × ℚ))
    (hk : k ∉ l.map (fun p => p.1)) :
    dictInsert k v l = l ++ [(k, v)] := by
  induction l with
  | nil => rfl
  | cons p rest ih =>
    simp only [List.map_cons, List.mem_cons] at hk
    push_neg at hk
    unfold dictInsert
    rw [if_neg (fun h => hk.1 h.symm)]
    rw [ih hk.2]
    rfl

theorem foldl_dictInsert_eq {γ : Type} (items : List γ) (key : γ → String)
    (val : γ → ℚ) (acc : List (String × ℚ)) (hnd : (items.map key).Nodup)
    (hdisj : ∀ g ∈ items, key g ∉ acc.map (fun p => p.1)) :
    items.foldl (fun a g => dictInsert (key g) (val g) a) acc =
      acc ++ items.map (fun g => (key g, val g)) := by
  induction items generalizing acc with
  | nil => simp
  | cons g gs ih =>
    simp only [List.map_cons, List.nodup_cons] at hnd
    rw [List.foldl_cons]
    rw [dictInsert_fresh (key g) (val g) acc (hdisj g (List.mem_cons_self g gs))]
    have hdisj2 : ∀ g' ∈ gs, key g' ∉ (acc ++ [(key g, val g)]).map (fun p => p.1) := by
      intro g' hg'
      rw [List.map_append]
      intro hmem
      rcases List.mem_append.mp hmem with h | h
      · exact hdisj g' (List.mem_cons_of_mem g hg') h
      · simp only [List.map_cons, List.map_nil, List.mem_singleton] at h
        exact hnd.1 (h ▸ List.mem_map_of_mem key hg')
    rw [ih (acc ++ [(key g, val g)]) hnd.2 hdisj2]
    simp

theorem find_docid_unique (l : List Cand)
    (hnd : (l.map (fun c => c.doc_id)).Nodup) (c : Cand) (hc : c ∈ l) :
    l.find? (fun x => x.doc_id == c.doc_id) = some c := by
  induction l with
  | nil => cases hc
  | cons a rest ih =>
    simp only [List.map_cons, List.nodup_cons] at hnd
    rcases List.mem_cons.mp hc with h | h
    · rw [h]
      rw [List.find?_cons_of_pos]
      exact beq_self_eq_true _
    · rw [List.find?_cons_of_neg, ih hnd.2 h]
      intro hpos
      have heq := eq_of_beq hpos
      exact hnd.1 (heq ▸ List.mem_map_of_mem (fun c => c.doc_id) h)

theorem normIsZero_replicate (n : ℕ) : normIsZero (List.replicate n (0 : ℚ)) = true := by
  unfold normIsZero
  rw [List.all_eq_true]
  intro x hx
  rw [List.eq_of_mem_replicate hx]
  simp

theorem padOrTruncate_nil (n : ℕ) : padOrTruncate [] n = List.replicate n 0 := by
  unfold padOrTruncate
  cases n with
  | zero => rfl
  | succ m => simp

theorem batchScore_noData (encode : String → EncodeResult)
    (cosv : List ℚ → List ℚ → ℚ) (candidates : List Cand) (qdata : List ℚ)
    (c : Cand) (hc : encode c.content = EncodeResult.noData) :
    batchScore encode cosv candidates qdata c = 0 := by
  unfold batchScore
  rw [hc]
  show (if 0 < (padOrTruncate (encData EncodeResult.noData)
        (batchTargetSize encode candidates)).length ∧
      0 < (padOrTruncate qdata (batchTargetSize encode candidates)).length then
      cosine_similarity cosv _ _ else 0) = 0
  have hnil : encData EncodeResult.noData = [] := rfl
  rw [hnil, padOrTruncate_nil]
  by_cases h : 0 < (List.replicate (batchTargetSize encode candidates) (0 : ℚ)).length ∧
      0 < (padOrTruncate qdata (batchTargetSize encode candidates)).length
  · rw [if_pos h]
    unfold cosine_similarity
    rw [if_neg (by omega)]
    rw [if_pos (Or.inl (by rw [normIsZero_replicate]))]
  · rw [if_neg h]

theorem rerank_embeddings_eq (encode : String → EncodeResult)
    (cosv : List ℚ → List ℚ → ℚ) (cands : List Cand) (qdata : List ℚ)
    (hnd : (cands.map (fun c => c.doc_id)).Nodup) :
    rerank_embeddings cosv
        ((cands.map (fun c => encData (encode c.content))).map
          (fun e => padOrTruncate e (batchTargetSize encode cands)))
        (padOrTruncate qdata (batchTargetSize encode cands)) cands =
      pySortedByDesc (fun p => p.2)
        (cands.map (fun c => (c.doc_id, batchScore encode cosv cands qdata c))) := by
  unfold rerank_embeddings
  rw [List.map_map, zip_self_map]
  have hfold := foldl_dictInsert_eq
    (cands.map (fun c =>
      (c, padOrTruncate (encData (encode c.content)) (batchTargetSize encode cands))))
    (fun ce => ce.1.doc_id)
    (fun ce => if 0 < ce.2.length ∧
        0 < (padOrTruncate qdata (batchTargetSize encode cands)).length then
      cosine_similarity cosv ce.2 (padOrTruncate qdata (batchTargetSize encode cands))
    else 0)
    [] (by rw [List.map_map]; exact hnd) (by intro g _ h; cases h)
  simp only [List.nil_append, List.map_map] at hfold
  exact congrArg (pySortedByDesc (fun p => p.2)) hfold

theorem process_candidates_reduce (encode : String → EncodeResult)
    (cosv : List ℚ → List ℚ → ℚ) (cands : List Cand) (query : String)
    (t : ℚ) (qdata : List ℚ) (hq : query ≠ "") (hne : cands ≠ [])
    (hnx : ∀ c ∈ cands, encode c.content ≠ EncodeResult.exn)
    (hqe : encode query = EncodeResult.ok qdata)
    (hts : batchTargetSize encode cands ≠ 0) :
    process_candidates encode cosv cands query t =
      ((rerank_embeddings cosv
          ((cands.map (fun c => encData (encode c.content))).map
            (fun e => padOrTruncate e (batchTargetSize encode cands)))
          (padOrTruncate qdata (batchTargetSize encode cands)) cands).filterMap
        (fun p => (cands.find? (fun c => c.doc_id == p.1)).map (fun c =>
          ({ doc_id := p.1, score := p.2, content := c.content
             organization_id := pyOrgField c } : RankedItem)))).filter
        (fun item => t ≤ item.score) := by
  have hempty : cands.isEmpty = false := by
    cases cands with
    | nil => exact absurd rfl hne
    | cons a l => rfl
  have hany : (cands.any fun c => isExn (encode c.content)) = false := by
    rw [List.any_eq_false]
    intro c hc
    rw [isExn_eq_false (hnx c hc)]
    simp
  unfold process_candidates
  rw [if_neg (by simp [hq, hempty])]
  rw [hany, if_neg (by simp)]
  rw [if_neg (show ¬(isExn (encode query) = true) by rw [hqe]; simp [isExn])]
  dsimp only
  rw [if_neg hts, hqe]

theorem process_candidates_membership (encode : String → EncodeResult)
    (cosv : List ℚ → List ℚ → ℚ) (cands : List Cand) (query : String)
    (t : ℚ) (qdata : List ℚ) (hq : query ≠ "")
    (hnd : (cands.map (fun c => c.doc_id)).Nodup)
    (hnx : ∀ c ∈ cands, encode c.content ≠ EncodeResult.exn)
    (hqe : encode query = EncodeResult.ok qdata)
    (hts : batchTargetSize encode cands ≠ 0) :
    ∀ c ∈ cands,
      (c.doc_id ∈ (process_candidates encode cosv cands query t).map
          (fun it => it.doc_id) ↔
        t ≤ batchScore encode cosv cands qdata c) := by
  intro c hc
  have hne : cands ≠ [] := by
    intro h
    rw [h] at hc
    cases hc
  rw [process_candidates_reduce encode cosv cands query t qdata hq hne hnx hqe hts]
  rw [rerank_embeddings_eq encode cosv cands qdata hnd]
  have hperm := pySortedByDesc_perm (fun p : String × ℚ => p.2)
    (cands.map (fun c => (c.doc_id, batchScore encode cosv cands qdata c)))
  constructor
  · intro hmem
    rcases List.mem_map.mp hmem with ⟨it, hit, hid⟩
    have hit2 := List.mem_filter.mp hit
    have hscore : t ≤ it.score := of_decide_eq_true hit2.2
    rcases List.mem_filterMap.mp hit2.1 with ⟨p, hp, hfp⟩
    rcases Option.map_eq_some'.mp hfp with ⟨c', hfind, hmk⟩
    have hp2 : p ∈ cands.map
        (fun c => (c.doc_id, batchScore encode cosv cands qdata c)) :=
      hperm.mem_iff.mp hp
    rcases List.mem_map.mp hp2 with ⟨cj, hcj, hpj⟩
    have hidj : cj.doc_id = c.doc_id := by
      have h1 : it.doc_id = p.1 := by rw [← hmk]
      rw [← hid, h1, ← hpj]
    have hcjc : cj = c :=
      List.inj_on_of_nodup_map hnd hcj hc hidj
    have hsc : it.score = batchScore encode cosv cands qdata c := by
      have h2 : it.score = p.2 := by rw [← hmk]
      rw [h2, ← hpj, hcjc]
    rw [← hsc]
    exact hscore
  · intro hle
    have hp : (c.doc_id, batchScore encode cosv cands qdata c) ∈
        cands.map (fun c => (c.doc_id, batchScore encode cosv cands qdata c)) :=
      List.mem_map_of_mem _ hc
    have hps := hperm.mem_iff.mpr hp
    have hfind := find_docid_unique cands hnd c hc
    refine List.mem_map.mpr ⟨RankedItem.mk c.doc_id
      (batchScore encode cosv cands qdata c) c.content (pyOrgField c), ?_, rfl⟩
    refine List.mem_filter.mpr ⟨?_, decide_eq_true hle⟩
    refine List.mem_filterMap.mpr
      ⟨(c.doc_id, batchScore encode cosv cands qdata c), hps, ?_⟩
    rw [hfind]
    rfl

/-- Claim C7 amended: failure isolation in process_candidates depends on the
failure mode.  (1) If the embedder RAISES on any single candidate, the whole
batch result is the empty list (returned, not propagated), losing the
healthy siblings.  (2) If every candidate merely yields no embedding data,
the batch result is empty.  (3) A candidate whose embedder returns no data
receives relevance score 0, so (4) under no-exception conditions a candidate
appears in the output exactly when its batch score reaches the threshold:
no-data candidates are excluded by any positive threshold while the
remaining candidates are still scored, ranked and returned. -/
theorem rerank_failure_isolation :
    (∀ (encode : String → EncodeResult) (cosv : List ℚ → List ℚ → ℚ)
        (cands : List Cand) (query : String) (t : ℚ) (c : Cand), c ∈ cands →
      encode c.content = EncodeResult.exn →
      process_candidates encode cosv cands query t = []) ∧
    (∀ (encode : String → EncodeResult) (cosv : List ℚ → List ℚ → ℚ)
        (cands : List Cand) (query : String) (t : ℚ),
      (∀ c ∈ cands, encode c.content = EncodeResult.noData) →
      process_candidates encode cosv cands query t = []) ∧
    (∀ (encode : String → EncodeResult) (cosv : List ℚ → List ℚ → ℚ)
        (cands : List Cand) (qdata : List ℚ) (c : Cand),
      encode c.content = EncodeResult.noData →
      batchScore encode cosv cands qdata c = 0) ∧
    (∀ (encode : String → EncodeResult) (cosv : List ℚ → List ℚ → ℚ)
        (cands : List Cand) (query : String) (t : ℚ) (qdata : List ℚ),
      query ≠ "" → (cands.map (fun c => c.doc_id)).Nodup →
      (∀ c ∈ cands, encode c.content ≠ EncodeResult.exn) →
      encode query = EncodeResult.ok qdata →
      batchTargetSize encode cands ≠ 0 →
      ∀ c ∈ cands,
        (c.doc_id ∈ (process_candidates encode cosv cands query t).map
            (fun it => it.doc_id) ↔
          t ≤ batchScore encode cosv cands qdata c)) :=
  ⟨fun encode cosv cands query t c hc hx =>
      process_candidates_exn_empty encode cosv cands query t c hc hx,
    fun encode cosv cands query t h =>
      process_candidates_all_noData_empty encode cosv cands query t h,
    fun encode cosv cands qdata c h =>
      batchScore_noData encode cosv cands qdata c h,
    fun encode cosv cands query t qdata hq hnd hnx hqe hts =>
      process_candidates_membership encode cosv cands query t qdata hq hnd hnx hqe hts⟩

/-- An embedder that raises on the content bad and succeeds elsewhere, and a
constant cosine oracle: fixtures for claim C7. -/
def encodeCE : String → EncodeResult := fun s =>
  if s = "bad" then EncodeResult.exn else EncodeResult.ok [1]

def cosOne : List ℚ → List ℚ → ℚ := fun _ _ => 1

def candGood : Cand := ⟨"d1", "good", none⟩

def candBad : Cand := ⟨"d2", "bad", none⟩

/-- Counterexample to claim C7 as stated: with one healthy candidate and one
candidate on which the embedder raises, process_candidates returns the empty
list — the healthy candidate is not scored, ranked or returned, although on
its own it would pass the threshold with score 1. -/
theorem rerank_failure_counterexample :
    process_candidates encodeCE cosOne [candGood, candBad] "q" 0 = [] ∧
    process_candidates encodeCE cosOne [candGood] "q" 0 =
      [⟨"d1", 1, "good", none⟩] := by
  constructor
  · rfl
  · decide

/-- Witness for the amended claim C7 at a concrete input. -/
theorem rerank_failure_isolation_witness :
    ("d1" ∈ (process_candidates encodeCE cosOne [candGood] "q" 0).map
        (fun it => it.doc_id) ↔
      (0 : ℚ) ≤ batchScore encodeCE cosOne [candGood] [1] candGood) :=
  rerank_failure_isolation.2.2.2 encodeCE cosOne [candGood] "q" 0 [1]
    (by decide) (by decide) (by decide) (by decide) (by decide)
    candGood (by decide)
